import Mathlib

/-!
Verification of the ConVulAgent concurrency-and-parsing subsystem.

This file shallowly embeds the two source files of the repository:

* `src/deepseek_agent.py` — the `DeepSeekAgent.query` response extractor
  (markdown-fence JSON extraction plus `json.loads`), its error records,
  and `generate_summary`;
* `examples/review.py` — `scan_directory`, the thread-per-file
  `run_project_review` fan-out, and the CLI `main`.

Python strings are modelled as `List Char` (Python slices and indexes by
code point, so `List Char` is the faithful unit).  Python dictionaries
returned by the agent are modelled as `JsonValue.obj` association lists.
-/

/- ## Python string primitives

`isPrefixL pre s` is `s.startswith(pre)`; `hasSub sep s` is Python's
substring test `sep in s`; `splitFirst sep s` locates the first
(leftmost) occurrence of `sep` in `s` and returns the text before it and
the text after it, exactly the decomposition `str.split` performs for
its first field. -/

def isPrefixL : List Char → List Char → Bool
  | [], _ => true
  | _ :: _, [] => false
  | a :: as, b :: bs => a == b && isPrefixL as bs

def hasSub (sep : List Char) : List Char → Bool
  | [] => isPrefixL sep []
  | c :: rest => isPrefixL sep (c :: rest) || hasSub sep rest

def splitFirst (sep : List Char) : List Char → Option (List Char × List Char)
  | [] => if isPrefixL sep [] then some ([], []) else none
  | c :: rest =>
    if isPrefixL sep (c :: rest) then some ([], (c :: rest).drop sep.length)
    else
      match splitFirst sep rest with
      | some (pre, post) => some (c :: pre, post)
      | none => none

/-- `part0 sep s` is Python's `s.split(sep)[0]`: the text before the
first occurrence of `sep`, or all of `s` when `sep` does not occur. -/
def part0 (sep s : List Char) : List Char :=
  match splitFirst sep s with
  | some (pre, _) => pre
  | none => s

/-- `part1 sep s` is Python's `s.split(sep)[1]`: the text between the
first and second occurrences of `sep` (to the end of the string when
`sep` occurs only once).  The source only evaluates it under an
`sep in s` guard; we return `[]` when `sep` does not occur. -/
def part1 (sep s : List Char) : List Char :=
  match splitFirst sep s with
  | some (_, post) => part0 sep post
  | none => []

/-- The ASCII whitespace removed by Python `str.strip()` (Python strips
all Unicode whitespace; the ASCII subset suffices for this code). -/
def pyWsChar (c : Char) : Bool :=
  c = ' ' || c = '\t' || c = '\n' || c = '\r' || c = '\x0b' || c = '\x0c'

/-- Python `s.strip()`. -/
def pyStrip (s : List Char) : List Char :=
  ((s.dropWhile pyWsChar).reverse.dropWhile pyWsChar).reverse

/- ## `json.loads`

A model of CPython's `json.loads` on the JSON grammar it accepts by
default: values, objects, arrays, strings with escapes, numbers, the
literals `true`/`false`/`null` and the non-standard constants
`NaN`/`Infinity`/`-Infinity`.  JSON whitespace is exactly space, tab,
LF, CR (narrower than `str.strip()`'s set).  Numbers are kept as their
lexemes; `json.loads` raises `JSONDecodeError` exactly where the model
returns `none`. -/

inductive JsonValue where
  | null
  | boolean (b : Bool)
  | num (lexeme : List Char)
  | str (s : List Char)
  | arr (elems : List JsonValue)
  | obj (members : List (List Char × JsonValue))

def lbrace : Char := '\x7b'

def rbrace : Char := '\x7d'

def jsonWsChar (c : Char) : Bool :=
  c = ' ' || c = '\t' || c = '\n' || c = '\r'

def skipWs (s : List Char) : List Char := s.dropWhile jsonWsChar

def isDigitC (c : Char) : Bool := '0' ≤ c && c ≤ '9'

def isHexC (c : Char) : Bool :=
  isDigitC c || ('a' ≤ c && c ≤ 'f') || ('A' ≤ c && c ≤ 'F')

def hexVal (c : Char) : Nat :=
  if isDigitC c then c.toNat - '0'.toNat
  else if 'a' ≤ c && c ≤ 'f' then c.toNat - 'a'.toNat + 10
  else c.toNat - 'A'.toNat + 10

/-- Body of a JSON string after the opening quote: returns the decoded
characters and the rest of the input after the closing quote.  Strict
mode: raw control characters are rejected, escapes are the JSON ones. -/
def parseStringBody : Nat → List Char → Option (List Char × List Char)
  | 0, _ => none
  | _ + 1, [] => none
  | fuel + 1, c :: rest =>
    if c = '"' then some ([], rest)
    else if c = '\\' then
      match rest with
      | [] => none
      | e :: rest2 =>
        if e = '"' then
          (parseStringBody fuel rest2).map (fun pr => ('"' :: pr.1, pr.2))
        else if e = '\\' then
          (parseStringBody fuel rest2).map (fun pr => ('\\' :: pr.1, pr.2))
        else if e = '/' then
          (parseStringBody fuel rest2).map (fun pr => ('/' :: pr.1, pr.2))
        else if e = 'b' then
          (parseStringBody fuel rest2).map (fun pr => ('\x08' :: pr.1, pr.2))
        else if e = 'f' then
          (parseStringBody fuel rest2).map (fun pr => ('\x0c' :: pr.1, pr.2))
        else if e = 'n' then
          (parseStringBody fuel rest2).map (fun pr => ('\n' :: pr.1, pr.2))
        else if e = 'r' then
          (parseStringBody fuel rest2).map (fun pr => ('\r' :: pr.1, pr.2))
        else if e = 't' then
          (parseStringBody fuel rest2).map (fun pr => ('\t' :: pr.1, pr.2))
        else if e = 'u' then
          match rest2 with
          | h1 :: h2 :: h3 :: h4 :: rest3 =>
            if isHexC h1 && isHexC h2 && isHexC h3 && isHexC h4 then
              (parseStringBody fuel rest3).map (fun pr =>
                (Char.ofNat (((hexVal h1 * 16 + hexVal h2) * 16 + hexVal h3) * 16 + hexVal h4) :: pr.1, pr.2))
            else none
          | _ => none
        else none
    else if c.toNat < 32 then none
    else (parseStringBody fuel rest).map (fun pr => (c :: pr.1, pr.2))

/-- Integer part of a JSON number: `0` or a nonzero digit followed by
digits (the `(?:0|[1-9]\d*)` of the scanner's regex). -/
def parseIntPart : List Char → Option (List Char × List Char)
  | [] => none
  | c :: rest =>
    if c = '0' then some (['0'], rest)
    else if isDigitC c then
      some (c :: rest.takeWhile isDigitC, rest.dropWhile isDigitC)
    else none

/-- Optional fraction part `(\.\d+)?`. -/
def parseFrac (s : List Char) : List Char × List Char :=
  match s with
  | '.' :: rest =>
    let ds := rest.takeWhile isDigitC
    if ds.isEmpty then ([], s) else ('.' :: ds, rest.dropWhile isDigitC)
  | _ => ([], s)

/-- Optional exponent part `([eE][-+]?\d+)?`. -/
def parseExp (s : List Char) : List Char × List Char :=
  match s with
  | e :: rest =>
    if e = 'e' || e = 'E' then
      match rest with
      | sgn :: rest2 =>
        if sgn = '+' || sgn = '-' then
          let ds := rest2.takeWhile isDigitC
          if ds.isEmpty then ([], s)
          else (e :: sgn :: ds, rest2.dropWhile isDigitC)
        else
          let ds := rest.takeWhile isDigitC
          if ds.isEmpty then ([], s)
          else (e :: ds, rest.dropWhile isDigitC)
      | [] => ([], s)
    else ([], s)
  | [] => ([], s)

/-- A JSON number at the head of the input, returned as its lexeme. -/
def parseNumber (s : List Char) : Option (List Char × List Char) :=
  let sp := match s with
    | '-' :: r => (['-'], r)
    | _ => (([] : List Char), s)
  match parseIntPart sp.2 with
  | none => none
  | some (ip, s2) =>
    let fp := parseFrac s2
    let ep := parseExp fp.2
    some (sp.1 ++ ip ++ fp.1 ++ ep.1, ep.2)

mutual

/-- A JSON value at the head of the input (after skipping whitespace),
dispatching exactly as CPython's scanner does. -/
def parseValue : Nat → List Char → Option (JsonValue × List Char)
  | 0, _ => none
  | fuel + 1, s0 =>
    let s := skipWs s0
    match s with
    | [] => none
    | c :: rest =>
      if c = '"' then
        (parseStringBody fuel rest).map (fun pr => (.str pr.1, pr.2))
      else if c = lbrace then parseMembers fuel rest
      else if c = '[' then parseElements fuel rest
      else if isPrefixL ['n', 'u', 'l', 'l'] s then some (.null, s.drop 4)
      else if isPrefixL ['t', 'r', 'u', 'e'] s then some (.boolean true, s.drop 4)
      else if isPrefixL ['f', 'a', 'l', 's', 'e'] s then some (.boolean false, s.drop 5)
      else
        match parseNumber s with
        | some (lx, r) => some (.num lx, r)
        | none =>
          if isPrefixL ['N', 'a', 'N'] s then some (.num ['N', 'a', 'N'], s.drop 3)
          else if isPrefixL ['I', 'n', 'f', 'i', 'n', 'i', 't', 'y'] s then
            some (.num ['I', 'n', 'f', 'i', 'n', 'i', 't', 'y'], s.drop 8)
          else if isPrefixL ['-', 'I', 'n', 'f', 'i', 'n', 'i', 't', 'y'] s then
            some (.num ['-', 'I', 'n', 'f', 'i', 'n', 'i', 't', 'y'], s.drop 9)
          else none

/-- An object body after the opening brace. -/
def parseMembers : Nat → List Char → Option (JsonValue × List Char)
  | 0, _ => none
  | fuel + 1, s0 =>
    match skipWs s0 with
    | [] => none
    | c :: rest =>
      if c = rbrace then some (.obj [], rest)
      else if c = '"' then
        match parseStringBody fuel rest with
        | none => none
        | some (key, s1) =>
          match skipWs s1 with
          | ':' :: s2 =>
            match parseValue fuel s2 with
            | none => none
            | some (v, s3) => parsePairsTail fuel [(key, v)] s3
          | _ => none
      else none

/-- Remaining `, "key": value` pairs of an object, then the closing
brace. -/
def parsePairsTail : Nat → List (List Char × JsonValue) → List Char → Option (JsonValue × List Char)
  | 0, _, _ => none
  | fuel + 1, acc, s0 =>
    match skipWs s0 with
    | [] => none
    | c :: rest =>
      if c = rbrace then some (.obj acc, rest)
      else if c = ',' then
        match skipWs rest with
        | '"' :: s2 =>
          match parseStringBody fuel s2 with
          | none => none
          | some (key, s3) =>
            match skipWs s3 with
            | ':' :: s4 =>
              match parseValue fuel s4 with
              | none => none
              | some (v, s5) => parsePairsTail fuel (acc ++ [(key, v)]) s5
            | _ => none
        | _ => none
      else none

/-- An array body after the opening bracket. -/
def parseElements : Nat → List Char → Option (JsonValue × List Char)
  | 0, _ => none
  | fuel + 1, s0 =>
    match skipWs s0 with
    | [] => none
    | c :: rest =>
      if c = ']' then some (.arr [], rest)
      else
        match parseValue fuel (c :: rest) with
        | none => none
        | some (v, s1) => parseElemsTail fuel [v] s1

/-- Remaining `, value` elements of an array, then the closing
bracket. -/
def parseElemsTail : Nat → List JsonValue → List Char → Option (JsonValue × List Char)
  | 0, _, _ => none
  | fuel + 1, acc, s0 =>
    match skipWs s0 with
    | [] => none
    | c :: rest =>
      if c = ']' then some (.arr acc, rest)
      else if c = ',' then
        match parseValue fuel rest with
        | none => none
        | some (v, s1) => parseElemsTail fuel (acc ++ [v]) s1
      else none

end

/-- `json.loads`: parse one value, then require only whitespace to the
end (`Extra data` otherwise).  The fuel bounds the recursion depth;
every recursive descent consumes at least one character per two fuel
units, so `2 * length + 2` never runs out. -/
def jsonLoads (s : List Char) : Option JsonValue :=
  match parseValue (2 * s.length + 2) s with
  | some (v, rest) => if (skipWs rest).isEmpty then some v else none
  | none => none

/-- Python `dict` lookup `d.get(key)` on an object (the later of two
equal keys wins, as in `dict(pairs)`); `none` when the key is absent. -/
def jget (key : List Char) : JsonValue → Option JsonValue
  | .obj kvs => kvs.foldl (fun acc kv => if kv.1 = key then some kv.2 else acc) none
  | _ => none

/- ## `src/deepseek_agent.py` — `DeepSeekAgent.query`

The fence markers used on lines 90–93. -/

def btick : Char := '\x60'

def fjson : List Char := [btick, btick, btick, 'j', 's', 'o', 'n']

def fence : List Char := [btick, btick, btick]

/-- Lines 90–93 of `query`: the final value of the `content` variable
just before `json.loads(content)` —

```
if '```json' in content:
    content = content.split('```json')[1].split('```')[0].strip()
elif '```' in content:
    content = content.split('```')[1].split('```')[0].strip()
```
-/
def extractCandidate (content : List Char) : List Char :=
  if hasSub fjson content then pyStrip (part0 fence (part1 fjson content))
  else if hasSub fence content then pyStrip (part0 fence (part1 fence content))
  else content

/-- The fence-extraction-and-parse step of `query` with
`parse_json=True`: `json.loads` applied to the final `content`. -/
def extract_and_parse (content : List Char) : Option JsonValue :=
  jsonLoads (extractCandidate content)

/-- Running the extraction twice on the same text. -/
def extractTwice (content : List Char) : Option JsonValue × Option JsonValue :=
  (extract_and_parse content, extract_and_parse content)

/-- `DeepSeekAgent.query` (lines 80–106).  The backend call
(`query_openai`/`query_ollama` plus the `['message']['content']`
indexing) is the boundary: it either yields the reply text or raises,
and any exception it raises is a transport/shape error, not a
`json.JSONDecodeError` (the only `json.loads` call is the one modelled
here).  `Except.error msg` is such an exception with message `str(e)`;
the handlers return the dictionaries of lines 102, 106 and 97. -/
def query (backend : Except (List Char) (List Char)) (parse_json : Bool) : JsonValue :=
  match backend with
  | .error e =>
    -- line 106: `return {"error": str(e)}`
    .obj [(['e', 'r', 'r', 'o', 'r'], .str e)]
  | .ok content =>
    if parse_json then
      match jsonLoads (extractCandidate content) with
      | some v => v -- line 95: `return json.loads(content)`
      | none =>
        -- line 102: `return {"error": "json_parse_error", "raw_response": content}`
        -- `content` here is the reassigned (extracted) candidate.
        .obj [(['e', 'r', 'r', 'o', 'r'],
                .str ['j', 's', 'o', 'n', '_', 'p', 'a', 'r', 's', 'e', '_', 'e', 'r', 'r', 'o', 'r']),
              (['r', 'a', 'w', '_', 'r', 'e', 's', 'p', 'o', 'n', 's', 'e'],
                .str (extractCandidate content))]
    else
      -- line 97: `return {"response": content}`
      .obj [(['r', 'e', 's', 'p', 'o', 'n', 's', 'e'], .str content)]

/-- `DeepSeekAgent.generate_summary` (lines 118–122):
`self.query(prompt, parse_json=False).get('response', 'No summary generated')`. -/
def generate_summary (backend : Except (List Char) (List Char)) : JsonValue :=
  (jget ['r', 'e', 's', 'p', 'o', 'n', 's', 'e'] (query backend false)).getD
    (.str ("No summary generated".data))

/- ## `examples/review.py`

A directory tree: each node is a plain file or a directory with a
listing of children.  `os.walk(directory)` enumerates every directory
under `directory`; for the scan only the multiset of
`os.path.join(root, file)` strings matters, so the traversal below
visits each child in listing order, descending into subdirectories in
place (the spec guarantees no ordering: the enumeration order is
filesystem-dependent). -/

inductive FSTree where
  | file (name : List Char)
  | dir (name : List Char) (children : List FSTree)

/-- `os.path.join(root, name)` for a relative `name` and a `root` that
does not end with a separator. -/
def pathJoin (root name : List Char) : List Char := root ++ '/' :: name

/-- Line 35: `supported_extensions`. -/
def supported_extensions : List (List Char) :=
  [".py".data, ".js".data, ".ts".data, ".java".data, ".cpp".data,
   ".c".data, ".go".data, ".rb".data, ".php".data]

/-- Python `file.endswith(ext)` (case-sensitive). -/
def endsWithL (ext s : List Char) : Bool := isPrefixL ext.reverse s.reverse

/-- Line 40: `any(file.endswith(ext) for ext in supported_extensions)`. -/
def matchesExt (name : List Char) : Bool :=
  supported_extensions.any (fun ext => endsWithL ext name)

mutual

/-- The contribution of one directory entry to `scan_directory`. -/
def scanNode (rootPath : List Char) : FSTree → List (List Char)
  | .file name => if matchesExt name then [pathJoin rootPath name] else []
  | .dir name children => scanForest (pathJoin rootPath name) children

/-- The contribution of a directory listing to `scan_directory`. -/
def scanForest (rootPath : List Char) : List FSTree → List (List Char)
  | [] => []
  | t :: ts => scanNode rootPath t ++ scanForest rootPath ts

end

/-- `scan_directory(directory)` (lines 25–43) on the tree whose root
directory (the argument itself, whose own name is not joined into the
paths) has children `cs`. -/
def scan_directory (directory : List Char) (cs : List FSTree) : List (List Char) :=
  scanForest directory cs

mutual

/-- All files under one directory entry, with their joined path and
bare name — the reference set "file paths under the directory,
recursively" against which the scan filter is stated. -/
def allFilesNode (rootPath : List Char) : FSTree → List (List Char × List Char)
  | .file name => [(pathJoin rootPath name, name)]
  | .dir name children => allFilesForest (pathJoin rootPath name) children

/-- All files under a directory listing. -/
def allFilesForest (rootPath : List Char) : List FSTree → List (List Char × List Char)
  | [] => []
  | t :: ts => allFilesNode rootPath t ++ allFilesForest rootPath ts

end

/-- All `(path, name)` file pairs under the directory. -/
def allFiles (directory : List Char) (cs : List FSTree) : List (List Char × List Char) :=
  allFilesForest directory cs

/-- Whether `run_review(file_path)` returned a report (`Except.ok`) or
raised (`Except.error` with the exception message).  `run_review` is an
external collaborator of this subsystem; its outcome per path is the
parameter of the fan-out model. -/
def pipelineOk {ε ρ : Type} : Except ε ρ → Bool
  | .ok _ => true
  | .error _ => false

/-- The `(file_path, report)` pairs appended by the workers of
`run_project_review` (lines 58–63): one per successful `run_review`,
none for a worker whose pipeline raised (its `except` branch only
prints). -/
def reviewOutcomes {ε ρ : Type} (pipeline : List Char → Except ε ρ)
    (files : List (List Char)) : List (List Char × ρ) :=
  files.filterMap (fun p =>
    match pipeline p with
    | .ok r => some (p, r)
    | .error _ => none)

/-- The possible return values of `run_project_review(directory)`
(lines 45–74): all worker threads are started and joined, each
successful worker appends its pair exactly once to the shared `reports`
list (list append is atomic under the GIL), so the returned list is
some completion-order permutation of the successful outcomes. -/
def IsProjectReviewResult {ε ρ : Type} (pipeline : List Char → Except ε ρ)
    (directory : List Char) (cs : List FSTree) (out : List (List Char × ρ)) : Prop :=
  out.Perm (reviewOutcomes pipeline (scan_directory directory cs))

/- ### The CLI `main` (lines 76–112) -/

/-- Outcome of the dispatched review call (`run_review(path)` or
`run_project_review(path)`) inside the `try` block: it returned,
a `KeyboardInterrupt` reached the handler on line 105, or another
exception reached the handler on line 108. -/
inductive RunOutcome (ρ : Type) where
  | ok (r : ρ)
  | interrupted
  | failed (msg : List Char)

/-- The process state `main` consults: `sys.argv`, the three
`os.path` tests on the argument, and what the review call does. -/
structure MainEnv (ρ : Type) where
  argv : List (List Char)
  pathExists : Bool
  pathIsFile : Bool
  pathIsDir : Bool
  run : RunOutcome ρ

/-- `main()` (lines 76–112), returning the process exit code and the
console lines this subsystem prints (the report-summary printing of the
single-file success branch is an external collaborator and is left
out).  A fall-through return exits with code 0; `sys.exit(1)` in the
`else` branch raises `SystemExit`, which neither `except` clause
catches (`SystemExit` is not an `Exception` subclass), so the process
exits with code 1 there too. -/
def mainRun {ρ : Type} (env : MainEnv ρ) : Nat × List (List Char) :=
  match env.argv with
  | _ :: path :: _ =>
    if !env.pathExists then
      (1, [" Path not found: ".data ++ path])
    else if env.pathIsFile || env.pathIsDir then
      match env.run with
      | .ok _ => (0, [])
      | .interrupted => (0, ["\n\n  Review interrupted by user".data])
      | .failed msg => (1, ["\n Error during review: ".data ++ msg])
    else
      (1, [" Invalid path. Please provide a file or directory.".data])
  | _ =>
    (1, [" Usage: python examples/review.py <file_or_directory_path>".data,
         "Example: python examples/review.py test_samples/buggy_code.py".data])

example : jsonLoads ("1".data) = some (.num ['1']) := rfl

example : jsonLoads ("\x7b\"x\":1\x7d".data) =
    some (.obj [(['x'], .num ['1'])]) := rfl

example : jsonLoads ("bad".data) = none := rfl

example : extractCandidate ("pre ```json \x7b\"x\":1\x7d ``` post".data) =
    "\x7b\"x\":1\x7d".data := rfl

/- ## Lemmas about the string primitives -/

theorem isPrefixL_self_append (s t : List Char) : isPrefixL s (s ++ t) = true := by
  induction s with
  | nil => rfl
  | cons a as ih => simp [isPrefixL, ih]

theorem isPrefixL_cons_ne {a c : Char} (cs as : List Char) (h : c ≠ a) :
    isPrefixL (c :: cs) (a :: as) = false := by
  have hb : (c == a) = false := beq_eq_false_iff_ne.mpr h
  simp [isPrefixL, hb]

theorem isPrefixL_trans :
    ∀ {a b c : List Char}, isPrefixL a b = true → isPrefixL b c = true →
      isPrefixL a c = true
  | [], _, _, _, _ => rfl
  | _ :: _, [], _, hab, _ => by simp [isPrefixL] at hab
  | _ :: _, _ :: _, [], _, hbc => by simp [isPrefixL] at hbc
  | x :: a', y :: b', z :: c', hab, hbc => by
    simp only [isPrefixL, Bool.and_eq_true, beq_iff_eq] at hab hbc ⊢
    exact ⟨hab.1.trans hbc.1, isPrefixL_trans hab.2 hbc.2⟩

theorem splitFirst_clean {c : Char} (cs rest : List Char) :
    ∀ pre : List Char, (∀ a ∈ pre, a ≠ c) →
      splitFirst (c :: cs) (pre ++ c :: (cs ++ rest)) = some (pre, rest)
  | [], _ => by
    have h1 : isPrefixL (c :: cs) (c :: (cs ++ rest)) = true := by
      have := isPrefixL_self_append (c :: cs) rest
      simpa using this
    simp only [List.nil_append]
    rw [splitFirst, if_pos h1]
    simp [List.drop_succ_cons, List.drop_left]
  | a :: pre', hpre => by
    have ha : c ≠ a := Ne.symm (hpre a (List.mem_cons_self a pre'))
    have h2 : isPrefixL (c :: cs) (a :: (pre' ++ c :: (cs ++ rest))) = false :=
      isPrefixL_cons_ne cs _ ha
    have ih := splitFirst_clean cs rest pre'
      (fun x hx => hpre x (List.mem_cons_of_mem a hx))
    simp only [List.cons_append]
    rw [splitFirst, if_neg (by simp [h2]), ih]

theorem splitFirst_append_left {c : Char} (cs t : List Char) :
    ∀ mid : List Char, (∀ a ∈ mid, a ≠ c) →
      splitFirst (c :: cs) (mid ++ t) =
        match splitFirst (c :: cs) t with
        | none => none
        | some pq => some (mid ++ pq.1, pq.2)
  | [], _ => by
    cases h : splitFirst (c :: cs) t with
    | none => simp [h]
    | some pq => simp [h]
  | a :: mid', hmid => by
    have ha : c ≠ a := Ne.symm (hmid a (List.mem_cons_self a mid'))
    have h2 : isPrefixL (c :: cs) (a :: (mid' ++ t)) = false :=
      isPrefixL_cons_ne cs (mid' ++ t) ha
    have ih := splitFirst_append_left cs t mid'
      (fun x hx => hmid x (List.mem_cons_of_mem a hx))
    simp only [List.cons_append]
    rw [splitFirst, if_neg (by simp [h2]), ih]
    cases splitFirst (c :: cs) t with
    | none => rfl
    | some pq => rfl

theorem hasSub_eq_isSome (sep : List Char) :
    ∀ s : List Char, hasSub sep s = (splitFirst sep s).isSome := by
  intro s
  induction s with
  | nil =>
    rw [hasSub, splitFirst]
    cases h : isPrefixL sep [] <;> simp [h]
  | cons c rest ih =>
    rw [hasSub, splitFirst]
    cases h : isPrefixL sep (c :: rest) with
    | true => simp [h]
    | false =>
      rw [if_neg (by simp [h]), ih]
      cases splitFirst sep rest with
      | none => simp [h]
      | some pq => simp [h]

theorem splitFirst_eq_none {sep s : List Char} (h : hasSub sep s = false) :
    splitFirst sep s = none := by
  have := hasSub_eq_isSome sep s
  rw [h] at this
  cases hs : splitFirst sep s with
  | none => rfl
  | some pq => rw [hs] at this; simp at this

theorem part0_eq_self {sep s : List Char} (h : hasSub sep s = false) :
    part0 sep s = s := by
  rw [part0, splitFirst_eq_none h]

theorem hasSub_middle (sep : List Char) :
    ∀ a : List Char, ∀ b : List Char, hasSub sep (a ++ sep ++ b) = true
  | [], b => by
    simp only [List.nil_append]
    cases hs : sep ++ b with
    | nil =>
      have hsep : sep = [] := (List.append_eq_nil.mp hs).1
      subst hsep
      simp [hasSub, isPrefixL]
    | cons x xs =>
      rw [hasSub]
      have h1 : isPrefixL sep (x :: xs) = true := by
        rw [← hs]; exact isPrefixL_self_append sep b
      simp [h1]
  | a0 :: a', b => by
    have ih := hasSub_middle sep a' b
    simp only [List.cons_append]
    rw [hasSub, ih]
    simp

theorem hasSub_mono {a b : List Char} (hab : isPrefixL a b = true) :
    ∀ {s : List Char}, hasSub b s = true → hasSub a s = true := by
  intro s
  induction s with
  | nil =>
    intro h
    rw [hasSub] at h ⊢
    exact isPrefixL_trans hab h
  | cons c rest ih =>
    intro h
    rw [hasSub] at h ⊢
    rcases Bool.or_eq_true_iff.mp h with h1 | h2
    · exact Bool.or_eq_true_iff.mpr (Or.inl (isPrefixL_trans hab h1))
    · exact Bool.or_eq_true_iff.mpr (Or.inr (ih h2))

theorem hasSub_false_btfree {c : Char} (cs : List Char) :
    ∀ s : List Char, (∀ a ∈ s, a ≠ c) → hasSub (c :: cs) s = false
  | [], _ => by rw [hasSub]; rfl
  | a :: rest, h => by
    have ha : c ≠ a := Ne.symm (h a (List.mem_cons_self a rest))
    have ih := hasSub_false_btfree cs rest
      (fun x hx => h x (List.mem_cons_of_mem a hx))
    rw [hasSub, isPrefixL_cons_ne cs rest ha, ih]
    rfl

/- ## Lemmas about the fence extraction -/

/-- Backtick-free text: no fence marker can start inside it. -/
def btFree (s : List Char) : Bool := s.all (fun a => a != btick)

theorem btFree_spec {s : List Char} (h : btFree s = true) : ∀ a ∈ s, a ≠ btick := by
  intro a ha
  have := List.all_eq_true.mp h a ha
  simpa using this

theorem hasSub_fence_false {s : List Char} (hs : btFree s = true) :
    hasSub fence s = false :=
  hasSub_false_btfree [btick, btick] s (btFree_spec hs)

theorem part0_fence_btfree {s : List Char} (hs : btFree s = true) :
    part0 fence s = s :=
  part0_eq_self (hasSub_fence_false hs)

/-- `fjson` starts with `fence`, so a text with no generic fence has no
tagged fence either. -/
theorem hasSub_fjson_false {s : List Char} (h : hasSub fence s = false) :
    hasSub fjson s = false := by
  cases hj : hasSub fjson s with
  | false => rfl
  | true =>
    have : hasSub fence s = true := hasSub_mono (by decide) hj
    rw [h] at this
    exact absurd this (by simp)

/-- First occurrence of `fence` in `mid ++ fence ++ t` for backtick-free
`mid` is at the junction. -/
theorem splitFirst_fence_at (mid t : List Char) (hmid : btFree mid = true) :
    splitFirst fence (mid ++ fence ++ t) = some (mid, t) := by
  have h := @splitFirst_clean btick [btick, btick] t mid (btFree_spec hmid)
  simpa [fence, List.append_assoc] using h

theorem part0_fence_at (mid t : List Char) (hmid : btFree mid = true) :
    part0 fence (mid ++ fence ++ t) = mid := by
  rw [part0, splitFirst_fence_at mid t hmid]

/-- First occurrence of `fjson` in `pre ++ fjson ++ t` for backtick-free
`pre` is at the junction. -/
theorem splitFirst_fjson_at (pre t : List Char) (hpre : btFree pre = true) :
    splitFirst fjson (pre ++ fjson ++ t) = some (pre, t) := by
  have h := @splitFirst_clean btick [btick, btick, 'j', 's', 'o', 'n'] t
    pre (btFree_spec hpre)
  simpa [fjson, List.append_assoc] using h

/-- Where the first occurrence of `fjson` can sit inside
`fence ++ post` when `post` does not begin with a backtick: either the
closing fence itself opens a `json` tag (`post` begins with `json`), or
the occurrence lies wholly inside `post`. -/
theorem splitFirst_fjson_fence (post : List Char) (hpost : post.head? ≠ some btick) :
    splitFirst fjson (fence ++ post) = some ([], post.drop 4) ∨
    splitFirst fjson (fence ++ post) =
      (match splitFirst fjson post with
       | none => none
       | some pq => some (fence ++ pq.1, pq.2)) := by
  cases post with
  | nil => exact Or.inr rfl
  | cons p t =>
    have hp : p ≠ btick := by
      intro h
      exact hpost (by simp [h])
    have hbp : (btick == p) = false := beq_eq_false_iff_ne.mpr (Ne.symm hp)
    cases hj : isPrefixL ['j', 's', 'o', 'n'] (p :: t) with
    | true =>
      refine Or.inl ?_
      have hc1 : isPrefixL fjson (btick :: btick :: btick :: p :: t) = true := by
        simp only [fjson, isPrefixL, beq_self_eq_true, Bool.true_and]
        exact hj
      show splitFirst fjson (btick :: btick :: btick :: p :: t) = some ([], (p :: t).drop 4)
      rw [splitFirst, if_pos hc1]
      simp [fjson]
    | false =>
      refine Or.inr ?_
      have hc1 : isPrefixL fjson (btick :: btick :: btick :: p :: t) = false := by
        simp only [fjson, isPrefixL, beq_self_eq_true, Bool.true_and]
        exact hj
      have hc2 : isPrefixL fjson (btick :: btick :: p :: t) = false := by
        simp [fjson, isPrefixL, hbp]
      have hc3 : isPrefixL fjson (btick :: p :: t) = false := by
        simp [fjson, isPrefixL, hbp]
      show splitFirst fjson (btick :: btick :: btick :: p :: t) =
        (match splitFirst fjson (p :: t) with
         | none => none
         | some pq => some (fence ++ pq.1, pq.2))
      rw [splitFirst, if_neg (by simp [hc1])]
      rw [splitFirst, if_neg (by simp [hc2])]
      rw [splitFirst, if_neg (by simp [hc3])]
      cases splitFirst fjson (p :: t) with
      | none => rfl
      | some pq => simp [fence]

/-- The tagged-fence branch: on `pre ```json mid ``` post` with a clean
decomposition (no backtick in `pre` or `mid`, `post` not opening with a
backtick), the candidate is `mid.strip()`. -/
theorem extractCandidate_json_fence (pre mid post : List Char)
    (hpre : btFree pre = true) (hmid : btFree mid = true)
    (hpost : post.head? ≠ some btick) :
    extractCandidate (pre ++ fjson ++ mid ++ fence ++ post) = pyStrip mid := by
  have h1 : hasSub fjson (pre ++ fjson ++ mid ++ fence ++ post) = true := by
    have := hasSub_middle fjson pre ((mid ++ fence) ++ post)
    simpa [List.append_assoc] using this
  have h2 : splitFirst fjson (pre ++ fjson ++ mid ++ fence ++ post) =
      some (pre, mid ++ (fence ++ post)) := by
    have := splitFirst_fjson_at pre ((mid ++ fence) ++ post) hpre
    simpa [List.append_assoc] using this
  have h3 : splitFirst fjson (mid ++ (fence ++ post)) =
      (match splitFirst fjson (fence ++ post) with
       | none => none
       | some pq => some (mid ++ pq.1, pq.2)) :=
    @splitFirst_append_left btick [btick, btick, 'j', 's', 'o', 'n'] (fence ++ post)
      mid (btFree_spec hmid)
  have key : part0 fence (part0 fjson (mid ++ (fence ++ post))) = mid := by
    rcases splitFirst_fjson_fence post hpost with h4 | h4
    · have hin : part0 fjson (mid ++ (fence ++ post)) = mid := by
        rw [part0, h3, h4]
        show mid ++ [] = mid
        exact List.append_nil mid
      rw [hin]
      exact part0_fence_btfree hmid
    · cases hsp : splitFirst fjson post with
      | none =>
        have hin : part0 fjson (mid ++ (fence ++ post)) = mid ++ (fence ++ post) := by
          rw [part0, h3, h4, hsp]
        rw [hin]
        have := part0_fence_at mid post hmid
        simpa [List.append_assoc] using this
      | some pq =>
        have hin : part0 fjson (mid ++ (fence ++ post)) = mid ++ (fence ++ pq.1) := by
          rw [part0, h3, h4, hsp]
        rw [hin]
        have := part0_fence_at mid pq.1 hmid
        simpa [List.append_assoc] using this
  rw [extractCandidate, if_pos h1, part1, h2]
  show pyStrip (part0 fence (part0 fjson (mid ++ (fence ++ post)))) = pyStrip mid
  rw [key]

/-- The generic-fence branch: on `pre ``` mid ``` post` with no tagged
fence anywhere and a clean decomposition, the candidate is
`mid.strip()`. -/
theorem extractCandidate_generic_fence (pre mid post : List Char)
    (hpre : btFree pre = true) (hmid : btFree mid = true)
    (hnoj : hasSub fjson (pre ++ fence ++ mid ++ fence ++ post) = false) :
    extractCandidate (pre ++ fence ++ mid ++ fence ++ post) = pyStrip mid := by
  have h1 : hasSub fence (pre ++ fence ++ mid ++ fence ++ post) = true := by
    have := hasSub_middle fence pre ((mid ++ fence) ++ post)
    simpa [List.append_assoc] using this
  have h2 : splitFirst fence (pre ++ fence ++ mid ++ fence ++ post) =
      some (pre, mid ++ (fence ++ post)) := by
    have := splitFirst_fence_at pre ((mid ++ fence) ++ post) hpre
    simpa [List.append_assoc] using this
  have h5 : part0 fence (mid ++ (fence ++ post)) = mid := by
    have := part0_fence_at mid post hmid
    simpa [List.append_assoc] using this
  rw [extractCandidate, if_neg (by rw [hnoj]; simp), if_pos h1, part1, h2]
  show pyStrip (part0 fence (part0 fence (mid ++ (fence ++ post)))) = pyStrip mid
  rw [h5, part0_fence_btfree hmid]

/-- No fence at all: the candidate is the whole text, unstripped. -/
theorem extractCandidate_no_fence (content : List Char)
    (h : hasSub fence content = false) :
    extractCandidate content = content := by
  rw [extractCandidate, if_neg (by simp [hasSub_fjson_false h]),
    if_neg (by simp [h])]

/-- Unclosed tagged fence: on `pre ```json rest` with no closing fence
in `rest`, the candidate is everything after the opening marker,
stripped. -/
theorem extractCandidate_json_unclosed (pre rest : List Char)
    (hpre : btFree pre = true) (hrest : hasSub fence rest = false) :
    extractCandidate (pre ++ fjson ++ rest) = pyStrip rest := by
  have h1 : hasSub fjson (pre ++ fjson ++ rest) = true := by
    have := hasSub_middle fjson pre rest
    simpa [List.append_assoc] using this
  have h2 : splitFirst fjson (pre ++ fjson ++ rest) = some (pre, rest) :=
    splitFirst_fjson_at pre rest hpre
  rw [extractCandidate, if_pos h1, part1, h2]
  show pyStrip (part0 fence (part0 fjson rest)) = pyStrip rest
  rw [part0_eq_self (hasSub_fjson_false hrest), part0_eq_self hrest]

/-- Unclosed generic fence: on `pre ``` rest` with no tagged fence
anywhere and no closing fence in `rest`, the candidate is everything
after the opening marker, stripped. -/
theorem extractCandidate_generic_unclosed (pre rest : List Char)
    (hpre : btFree pre = true) (hrest : hasSub fence rest = false)
    (hnoj : hasSub fjson (pre ++ fence ++ rest) = false) :
    extractCandidate (pre ++ fence ++ rest) = pyStrip rest := by
  have h1 : hasSub fence (pre ++ fence ++ rest) = true := hasSub_middle fence pre rest
  have h2 : splitFirst fence (pre ++ fence ++ rest) = some (pre, rest) :=
    splitFirst_fence_at pre rest hpre
  rw [extractCandidate, if_neg (by rw [hnoj]; simp), if_pos h1, part1, h2]
  show pyStrip (part0 fence (part0 fence rest)) = pyStrip rest
  rw [part0_eq_self hrest, part0_eq_self hrest]

/- ## Lemmas about the directory scan and the fan-out -/

mutual

theorem scanNode_eq (rootPath : List Char) : ∀ t : FSTree,
    scanNode rootPath t =
      ((allFilesNode rootPath t).filter (fun q => matchesExt q.2)).map Prod.fst
  | .file name => by
    rw [scanNode, allFilesNode]
    cases h : matchesExt name <;> simp [h]
  | .dir name children => by
    rw [scanNode, allFilesNode]
    exact scanForest_eq (pathJoin rootPath name) children

theorem scanForest_eq (rootPath : List Char) : ∀ cs : List FSTree,
    scanForest rootPath cs =
      ((allFilesForest rootPath cs).filter (fun q => matchesExt q.2)).map Prod.fst
  | [] => rfl
  | t :: ts => by
    rw [scanForest, allFilesForest, List.filter_append, List.map_append,
      scanNode_eq rootPath t, scanForest_eq rootPath ts]

end

theorem scan_directory_eq (directory : List Char) (cs : List FSTree) :
    scan_directory directory cs =
      ((allFiles directory cs).filter (fun q => matchesExt q.2)).map Prod.fst :=
  scanForest_eq directory cs

theorem reviewOutcomes_map_fst {ε ρ : Type} (pipeline : List Char → Except ε ρ)
    (files : List (List Char)) :
    (reviewOutcomes pipeline files).map Prod.fst =
      files.filter (fun p => pipelineOk (pipeline p)) := by
  induction files with
  | nil => rfl
  | cons p ps ih =>
    rw [reviewOutcomes, List.filterMap_cons, List.filter_cons]
    cases h : pipeline p with
    | ok r =>
      simp only [h]
      rw [List.map_cons]
      rw [reviewOutcomes] at ih
      rw [ih]
      simp [pipelineOk]
    | error e =>
      have hok : pipelineOk (pipeline p) = false := by rw [h]; rfl
      simp only [h, hok]
      rw [reviewOutcomes] at ih
      simpa using ih

theorem reviewOutcomes_length {ε ρ : Type} (pipeline : List Char → Except ε ρ)
    (files : List (List Char)) :
    (reviewOutcomes pipeline files).length =
      (files.filter (fun p => pipelineOk (pipeline p))).length := by
  rw [← reviewOutcomes_map_fst pipeline files, List.length_map]

theorem length_filter_ok_add {ε ρ : Type} (pipeline : List Char → Except ε ρ)
    (files : List (List Char)) :
    (files.filter (fun p => pipelineOk (pipeline p))).length +
      (files.filter (fun p => !pipelineOk (pipeline p))).length = files.length := by
  induction files with
  | nil => rfl
  | cons p ps ih =>
    rw [List.filter_cons, List.filter_cons]
    cases h : pipelineOk (pipeline p) <;> simp [h] <;> omega

theorem mem_reviewOutcomes {ε ρ : Type} {pipeline : List Char → Except ε ρ}
    {files : List (List Char)} {e : List Char × ρ}
    (he : e ∈ reviewOutcomes pipeline files) :
    e.1 ∈ files ∧ pipeline e.1 = .ok e.2 := by
  rw [reviewOutcomes, List.mem_filterMap] at he
  obtain ⟨a, ha, hfa⟩ := he
  cases h : pipeline a with
  | ok r =>
    rw [h] at hfa
    simp only [Option.some_inj] at hfa
    cases hfa
    exact ⟨ha, h⟩
  | error err => rw [h] at hfa; simp at hfa

theorem reviewOutcomes_mem_of_ok {ε ρ : Type} {pipeline : List Char → Except ε ρ}
    {files : List (List Char)} {p : List Char} {r : ρ}
    (hp : p ∈ files) (hok : pipeline p = .ok r) :
    (p, r) ∈ reviewOutcomes pipeline files := by
  rw [reviewOutcomes, List.mem_filterMap]
  exact ⟨p, hp, by rw [hok]⟩

/- ## The claims -/

/-- Claim C5: for every prompt and every exception raised while querying
a backend (a transport/shape failure, which is never a
`json.JSONDecodeError` — the only `json.loads` call sits outside the
backend call), `query` catches the exception and returns the error
record `\x7b"error": <exception message>\x7d`; no such exception
propagates to a caller of `query`. -/
theorem claim5_transport_error_record (msg : List Char) (parse_json : Bool) :
    query (.error msg) parse_json =
      .obj [(['e', 'r', 'r', 'o', 'r'], .str msg)] := rfl

/-- Claim C8: the fence-extraction-and-parse step is deterministic:
running `extract_and_parse` twice on the same text yields the same
result — the step is a pure function of the text (the source uses only
local string operations and `json.loads`, no hidden state). -/
theorem claim8_extraction_deterministic (content : List Char) :
    (extractTwice content).1 = (extractTwice content).2 := rfl

/-- Claim C10: `generate_summary` never raises: when the underlying
query succeeds it returns the reply text stored under the `response`
key, and whenever `query` returns an error record (which lacks a
`response` key, e.g. after a transport failure) it returns the literal
fallback string `No summary generated`. -/
theorem claim10_summary_fallback :
    (∀ content : List Char, generate_summary (.ok content) = .str content) ∧
    (∀ msg : List Char,
      generate_summary (.error msg) = .str ("No summary generated".data)) :=
  ⟨fun _ => rfl, fun _ => rfl⟩

/-- Claim C1, counterexample to the claim as stated.  The input
`"```json x…x```"` (201 `x`s inside the fence) fails JSON parsing, but
the returned record's `raw_response` field holds the extracted
candidate (the 201 `x`s) — not the first 200 characters of the raw,
unextracted input text. -/
def cexC1 : List Char := ("```json ".data) ++ List.replicate 201 'x' ++ ("```".data)

set_option maxRecDepth 8000 in
/-- Claim C1 as stated is false at `cexC1`: the input fails JSON
parsing and the returned record's `error` field is `json_parse_error`,
but its `raw_response` field is the 201-character extracted candidate,
which is not the first 200 characters of the raw, unextracted input. -/
theorem claim1_counterexample :
    extract_and_parse cexC1 = none ∧
    query (.ok cexC1) true =
      .obj [(['e', 'r', 'r', 'o', 'r'],
              .str ['j', 's', 'o', 'n', '_', 'p', 'a', 'r', 's', 'e', '_', 'e', 'r', 'r', 'o', 'r']),
            (['r', 'a', 'w', '_', 'r', 'e', 's', 'p', 'o', 'n', 's', 'e'],
              .str (List.replicate 201 'x'))] ∧
    List.replicate 201 'x' ≠ cexC1.take 200 :=
  ⟨rfl, rfl, by decide⟩

/-- Claim C1 (amended): for every input text whose extraction candidate
fails JSON parsing, `query` with `parse_json=True` returns (and does
not raise — the model is total) an error record whose `error` field is
the kind tag `json_parse_error` and whose `raw_response` field equals
the entire candidate string: the fence-extracted, stripped text when a
fence is present, or the whole raw input otherwise.  The 200-character
truncation applies only to the printed diagnostic, not to the returned
record. -/
theorem claim1_parse_error_record (content : List Char)
    (h : extract_and_parse content = none) :
    query (.ok content) true =
      .obj [(['e', 'r', 'r', 'o', 'r'],
              .str ['j', 's', 'o', 'n', '_', 'p', 'a', 'r', 's', 'e', '_', 'e', 'r', 'r', 'o', 'r']),
            (['r', 'a', 'w', '_', 'r', 'e', 's', 'p', 'o', 'n', 's', 'e'],
              .str (extractCandidate content))] := by
  rw [extract_and_parse] at h
  simp only [query, h]
  rfl

theorem claim1_parse_error_record_witness :
    extract_and_parse ("not a json reply".data) = none ∧
    query (.ok ("not a json reply".data)) true =
      .obj [(['e', 'r', 'r', 'o', 'r'],
              .str ['j', 's', 'o', 'n', '_', 'p', 'a', 'r', 's', 'e', '_', 'e', 'r', 'r', 'o', 'r']),
            (['r', 'a', 'w', '_', 'r', 'e', 's', 'p', 'o', 'n', 's', 'e'],
              .str (extractCandidate ("not a json reply".data)))] :=
  ⟨rfl, claim1_parse_error_record ("not a json reply".data) rfl⟩

/-- Claim C2, counterexample to the claim as stated.  The input
`"\x0b\x7b\x7d"` (vertical tab, then an empty JSON object) contains no
fence, so the whole text is the candidate; the claim says the candidate
is trimmed and then parsed — trimming removes the vertical tab
(`str.strip()` strips it) and parsing then succeeds with the empty
mapping — but the code passes the untrimmed text straight to
`json.loads`, whose whitespace set (space, tab, LF, CR) does not cover
the vertical tab, so the code returns the parse-error record instead of
the mapping. -/
def cexC2 : List Char := '\x0b' :: [lbrace, rbrace]

/-- Claim C2 as stated is false at `cexC2`: the text has no fence, its
trimmed candidate parses to the empty mapping, yet the code returns the
parse-error record because the whole-text candidate is parsed without
trimming. -/
theorem claim2_counterexample :
    hasSub fence cexC2 = false ∧
    jsonLoads (pyStrip cexC2) = some (.obj []) ∧
    query (.ok cexC2) true =
      .obj [(['e', 'r', 'r', 'o', 'r'],
              .str ['j', 's', 'o', 'n', '_', 'p', 'a', 'r', 's', 'e', '_', 'e', 'r', 'r', 'o', 'r']),
            (['r', 'a', 'w', '_', 'r', 'e', 's', 'p', 'o', 'n', 's', 'e'],
              .str cexC2)] :=
  ⟨rfl, rfl, rfl⟩

/-- Claim C2 (amended): extraction follows the priority — if the text
contains a ```json fence marker, the candidate is everything between
the first such opening marker and the next closing ``` marker
(stated here for decompositions whose delimiters are unambiguous:
no backtick before or inside the fenced block and none opening the
trailing text); otherwise if it contains a generic ``` fence, the text
between the first and next ``` markers is the candidate; otherwise the
whole text is the candidate.  The fenced candidates are stripped before
parsing; the whole-text candidate is parsed as-is, without trimming.
On success the parsed value is returned as-is; in particular, text
containing a fenced block ```json \x7b"x":1\x7d ``` followed by more
text yields the mapping `\x7b"x": 1\x7d`. -/
theorem claim2_extraction_priority :
    (∀ pre mid post : List Char, btFree pre = true → btFree mid = true →
        post.head? ≠ some btick →
        extract_and_parse (pre ++ fjson ++ mid ++ fence ++ post) =
          jsonLoads (pyStrip mid)) ∧
    (∀ pre mid post : List Char, btFree pre = true → btFree mid = true →
        hasSub fjson (pre ++ fence ++ mid ++ fence ++ post) = false →
        extract_and_parse (pre ++ fence ++ mid ++ fence ++ post) =
          jsonLoads (pyStrip mid)) ∧
    (∀ content : List Char, hasSub fence content = false →
        extract_and_parse content = jsonLoads content) ∧
    (∀ content : List Char, ∀ v : JsonValue,
        extract_and_parse content = some v → query (.ok content) true = v) ∧
    query (.ok ("Here: ```json \x7b\"x\": 1\x7d ``` and some trailing text.".data)) true =
      .obj [(['x'], .num ['1'])] := by
  refine ⟨?_, ?_, ?_, ?_, rfl⟩
  · intro pre mid post hpre hmid hpost
    rw [extract_and_parse, extractCandidate_json_fence pre mid post hpre hmid hpost]
  · intro pre mid post hpre hmid hnoj
    rw [extract_and_parse, extractCandidate_generic_fence pre mid post hpre hmid hnoj]
  · intro content h
    rw [extract_and_parse, extractCandidate_no_fence content h]
  · intro content v h
    rw [extract_and_parse] at h
    simp only [query, h]
    rfl

theorem claim2_extraction_priority_witness :
    extract_and_parse ("Sure: ".data ++ fjson ++ " \x7b\"k\": true\x7d ".data ++ fence ++ " bye".data) =
      jsonLoads (pyStrip (" \x7b\"k\": true\x7d ".data)) ∧
    extract_and_parse ("Sure: ".data ++ fence ++ " \x7b\"k\": null\x7d ".data ++ fence ++ " bye".data) =
      jsonLoads (pyStrip (" \x7b\"k\": null\x7d ".data)) ∧
    extract_and_parse ("\x7b\"k\": 2\x7d".data) = jsonLoads ("\x7b\"k\": 2\x7d".data) ∧
    query (.ok ("\x7b\"k\": 2\x7d".data)) true = .obj [(['k'], .num ['2'])] :=
  ⟨claim2_extraction_priority.1 ("Sure: ".data) (" \x7b\"k\": true\x7d ".data)
      (" bye".data) (by decide) (by decide) (by decide),
   claim2_extraction_priority.2.1 ("Sure: ".data) (" \x7b\"k\": null\x7d ".data)
      (" bye".data) (by decide) (by decide) (by decide),
   claim2_extraction_priority.2.2.1 ("\x7b\"k\": 2\x7d".data) (by decide),
   claim2_extraction_priority.2.2.2.1 ("\x7b\"k\": 2\x7d".data)
      (.obj [(['k'], .num ['2'])]) rfl⟩

/-- Claim C9: for every reply text that contains an opening fence
marker (```json, or a generic ```) with no closing ``` marker after it,
`query` with `parse_json=True` uses everything from just after the
opening marker to the end of the text, trimmed, as the JSON candidate —
so an unclosed fence whose remainder is valid JSON still parses
successfully rather than producing an error record. -/
theorem claim9_unclosed_fence :
    (∀ pre rest : List Char, btFree pre = true → hasSub fence rest = false →
        extract_and_parse (pre ++ fjson ++ rest) = jsonLoads (pyStrip rest)) ∧
    (∀ pre rest : List Char, btFree pre = true → hasSub fence rest = false →
        hasSub fjson (pre ++ fence ++ rest) = false →
        extract_and_parse (pre ++ fence ++ rest) = jsonLoads (pyStrip rest)) ∧
    (∀ pre rest : List Char, ∀ v : JsonValue,
        btFree pre = true → hasSub fence rest = false →
        jsonLoads (pyStrip rest) = some v →
        query (.ok (pre ++ fjson ++ rest)) true = v) := by
  refine ⟨?_, ?_, ?_⟩
  · intro pre rest hpre hrest
    rw [extract_and_parse, extractCandidate_json_unclosed pre rest hpre hrest]
  · intro pre rest hpre hrest hnoj
    rw [extract_and_parse, extractCandidate_generic_unclosed pre rest hpre hrest hnoj]
  · intro pre rest v hpre hrest hv
    have hc := extractCandidate_json_unclosed pre rest hpre hrest
    simp only [query, hc, hv]
    rfl

theorem claim9_unclosed_fence_witness :
    extract_and_parse ("Answer: ".data ++ fjson ++ "\n\x7b\"a\": 1\x7d".data) =
      jsonLoads (pyStrip ("\n\x7b\"a\": 1\x7d".data)) ∧
    extract_and_parse ("Answer: ".data ++ fence ++ "\n\x7b\"b\": 2\x7d".data) =
      jsonLoads (pyStrip ("\n\x7b\"b\": 2\x7d".data)) ∧
    query (.ok ("Answer: ".data ++ fjson ++ "\n\x7b\"a\": 1\x7d".data)) true =
      .obj [(['a'], .num ['1'])] :=
  ⟨claim9_unclosed_fence.1 ("Answer: ".data) ("\n\x7b\"a\": 1\x7d".data)
      (by decide) (by decide),
   claim9_unclosed_fence.2.1 ("Answer: ".data) ("\n\x7b\"b\": 2\x7d".data)
      (by decide) (by decide) (by decide),
   claim9_unclosed_fence.2.2 ("Answer: ".data) ("\n\x7b\"a\": 1\x7d".data)
      (.obj [(['a'], .num ['1'])]) (by decide) (by decide) rfl⟩

/-- Claim C4: for every directory tree, `scan_directory` returns
exactly the file paths under that directory, recursively, whose name
ends with one of the extensions `.py .js .ts .java .cpp .c .go .rb
.php`, and no others; the suffix test is case-sensitive, so a file
ending in `.PY` is excluded.  The example tree `a.py, b.txt, sub/c.go`
yields exactly `root/a.py, root/sub/c.go`. -/
theorem claim4_scan_directory_filter :
    (∀ directory : List Char, ∀ cs : List FSTree,
        scan_directory directory cs =
          ((allFiles directory cs).filter (fun q => matchesExt q.2)).map Prod.fst) ∧
    (∀ directory : List Char, ∀ cs : List FSTree, ∀ p : List Char,
        p ∈ scan_directory directory cs ↔
          ∃ q ∈ allFiles directory cs, q.1 = p ∧ matchesExt q.2 = true) ∧
    matchesExt ("a.PY".data) = false ∧
    matchesExt ("a.py".data) = true ∧
    scan_directory ("root".data)
        [.file ("a.py".data), .file ("b.txt".data),
         .dir ("sub".data) [.file ("c.go".data)]] =
      ["root/a.py".data, "root/sub/c.go".data] := by
  refine ⟨scan_directory_eq, ?_, rfl, rfl, rfl⟩
  intro directory cs p
  rw [scan_directory_eq]
  constructor
  · intro hp
    rw [List.mem_map] at hp
    obtain ⟨q, hq, hqp⟩ := hp
    rw [List.mem_filter] at hq
    exact ⟨q, hq.1, hqp, hq.2⟩
  · rintro ⟨q, hq, hqp, hm⟩
    rw [List.mem_map]
    exact ⟨q, List.mem_filter.mpr ⟨hq, hm⟩, hqp⟩

/-- Claim C7: when the CLI argument path does not exist, `main` prints
a "Path not found" message containing that path and the process exits
with code 1; a `KeyboardInterrupt` during the dispatched review exits
the process with code 0. -/
theorem claim7_cli_exit_codes {ρ : Type} (env : MainEnv ρ)
    (script path : List Char) (rest : List (List Char))
    (hargv : env.argv = script :: path :: rest) :
    (env.pathExists = false →
      (mainRun env).1 = 1 ∧
      ∃ m ∈ (mainRun env).2,
        hasSub ("Path not found".data) m = true ∧ hasSub path m = true) ∧
    (env.pathExists = true → (env.pathIsFile = true ∨ env.pathIsDir = true) →
      env.run = .interrupted → (mainRun env).1 = 0) := by
  obtain ⟨argv, pe, pf, pd, run⟩ := env
  simp only at hargv
  subst hargv
  constructor
  · intro hpe
    simp only at hpe
    subst hpe
    refine ⟨rfl, " Path not found: ".data ++ path, ?_, ?_, ?_⟩
    · show _ ∈ [" Path not found: ".data ++ path]
      exact List.mem_singleton.mpr rfl
    · exact hasSub_middle ("Path not found".data) [' '] (':' :: ' ' :: path)
    · have h := hasSub_middle path (" Path not found: ".data) []
      rwa [List.append_nil] at h
  · intro hpe hfd hrun
    simp only at hpe hrun
    subst hpe
    subst hrun
    rcases hfd with hf | hd
    · simp only at hf
      subst hf
      rfl
    · simp only at hd
      subst hd
      cases pf <;> rfl

theorem claim7_cli_exit_codes_witness :
    (@mainRun Nat
        ⟨["review".data, "missing.py".data], false, false, false, .ok 0⟩).1 = 1 ∧
    (∃ m ∈ (@mainRun Nat
        ⟨["review".data, "missing.py".data], false, false, false, .ok 0⟩).2,
      hasSub ("Path not found".data) m = true ∧
      hasSub ("missing.py".data) m = true) ∧
    (@mainRun Nat
        ⟨["review".data, "proj".data], true, false, true, .interrupted⟩).1 = 0 := by
  have h1 := @claim7_cli_exit_codes Nat
    ⟨["review".data, "missing.py".data], false, false, false, .ok 0⟩
    ("review".data) ("missing.py".data) [] rfl
  have h2 := @claim7_cli_exit_codes Nat
    ⟨["review".data, "proj".data], true, false, true, .interrupted⟩
    ("review".data) ("proj".data) [] rfl
  exact ⟨(h1.1 rfl).1, (h1.1 rfl).2, h2.2 rfl (Or.inr rfl) rfl⟩

/-- Number of entries of `l` equal to `p` — the multiplicity of the
path `p` in a list of paths. -/
def pathCount (p : List Char) (l : List (List Char)) : Nat :=
  (l.filter (fun x => decide (x = p))).length

theorem pathCount_perm {p : List Char} {l₁ l₂ : List (List Char)}
    (h : l₁.Perm l₂) : pathCount p l₁ = pathCount p l₂ := by
  rw [pathCount, pathCount, ← List.countP_eq_length_filter,
    ← List.countP_eq_length_filter]
  exact h.countP_eq _

theorem pathCount_eq_zero {p : List Char} {l : List (List Char)}
    (h : p ∉ l) : pathCount p l = 0 := by
  induction l with
  | nil => rfl
  | cons a l ih =>
    rw [pathCount, List.filter_cons]
    have ha : a ≠ p := by
      intro hap
      exact h (by rw [← hap]; exact List.mem_cons_self a l)
    rw [if_neg (by simp [ha])]
    exact ih (fun hm => h (List.mem_cons_of_mem a hm))

theorem pathCount_eq_one {p : List Char} {l : List (List Char)}
    (hnd : l.Nodup) (hp : p ∈ l) : pathCount p l = 1 := by
  induction l with
  | nil => cases hp
  | cons a l ih =>
    rw [pathCount, List.filter_cons]
    rcases List.mem_cons.mp hp with heq | hpl
    · rw [if_pos (by simp [heq])]
      rw [List.length_cons]
      have hz : pathCount p l = 0 :=
        pathCount_eq_zero (by rw [heq]; exact (List.nodup_cons.mp hnd).1)
      rw [pathCount] at hz
      rw [hz]
    · have ha : a ≠ p := by
        intro hap
        exact (List.nodup_cons.mp hnd).1 (hap ▸ hpl)
      rw [if_neg (by simp [ha])]
      exact ih (List.nodup_cons.mp hnd).2 hpl

/-- Claim C3: for every directory with `N` discovered matching files
(with distinct paths, as on a real filesystem), any result collection
of `run_project_review` has at most `N` entries, exactly
`N - #\x7bfiles whose pipeline raised\x7d` entries, every entry's path
is one of the `N` discovered paths, no path appears twice, each
successful worker contributes exactly one `(path, report)` pair, and a
worker whose pipeline raised contributes zero entries. -/
theorem claim3_fanout_accounting {ε ρ : Type} (pipeline : List Char → Except ε ρ)
    (directory : List Char) (cs : List FSTree) (out : List (List Char × ρ))
    (hout : IsProjectReviewResult pipeline directory cs out)
    (hnd : (scan_directory directory cs).Nodup) :
    out.length ≤ (scan_directory directory cs).length ∧
    out.length = (scan_directory directory cs).length -
      ((scan_directory directory cs).filter
        (fun p => !pipelineOk (pipeline p))).length ∧
    (∀ e ∈ out, e.1 ∈ scan_directory directory cs) ∧
    (out.map Prod.fst).Nodup ∧
    (∀ p ∈ scan_directory directory cs,
      (pipelineOk (pipeline p) = true → pathCount p (out.map Prod.fst) = 1) ∧
      (pipelineOk (pipeline p) = false → pathCount p (out.map Prod.fst) = 0)) := by
  have hlen : out.length =
      ((scan_directory directory cs).filter
        (fun p => pipelineOk (pipeline p))).length := by
    rw [hout.length_eq, reviewOutcomes_length]
  have hsum := length_filter_ok_add pipeline (scan_directory directory cs)
  have hperm_fst : (out.map Prod.fst).Perm
      ((scan_directory directory cs).filter (fun p => pipelineOk (pipeline p))) := by
    have h := hout.map Prod.fst
    rwa [reviewOutcomes_map_fst] at h
  refine ⟨?_, ?_, ?_, ?_, ?_⟩
  · rw [hlen]
    exact List.length_filter_le _ _
  · omega
  · intro e he
    exact (mem_reviewOutcomes ((hout.mem_iff).mp he)).1
  · exact (hperm_fst.nodup_iff).mpr (hnd.filter _)
  · intro p hp
    rw [pathCount_perm hperm_fst]
    constructor
    · intro hok
      exact pathCount_eq_one (hnd.filter _)
        (List.mem_filter.mpr ⟨hp, hok⟩)
    · intro hfail
      refine pathCount_eq_zero ?_
      intro hmem
      have := (List.mem_filter.mp hmem).2
      rw [hfail] at this
      exact absurd this (by simp)

def c3pipe : List Char → Except (List Char) Nat :=
  fun p => if p = ("d/a.py".data) then .error ("boom".data) else .ok 7

def c3cs : List FSTree := [.file ("a.py".data), .file ("b.py".data)]

def c3out : List (List Char × Nat) :=
  reviewOutcomes c3pipe (scan_directory ("d".data) c3cs)

theorem claim3_fanout_accounting_witness :
    c3out.length ≤ (scan_directory ("d".data) c3cs).length ∧
    c3out.length = (scan_directory ("d".data) c3cs).length -
      ((scan_directory ("d".data) c3cs).filter
        (fun p => !pipelineOk (c3pipe p))).length ∧
    (∀ e ∈ c3out, e.1 ∈ scan_directory ("d".data) c3cs) ∧
    (c3out.map Prod.fst).Nodup ∧
    (∀ p ∈ scan_directory ("d".data) c3cs,
      (pipelineOk (c3pipe p) = true → pathCount p (c3out.map Prod.fst) = 1) ∧
      (pipelineOk (c3pipe p) = false → pathCount p (c3out.map Prod.fst) = 0)) :=
  claim3_fanout_accounting c3pipe ("d".data) c3cs c3out
    (List.Perm.refl _) (by decide)

/-- Claim C6: if the review pipeline for one discovered file raises an
exception, every other file whose pipeline succeeds still has its
`(path, report)` entry present in the collection returned by
`run_project_review` — one file's failure does not abort or suppress
sibling work. -/
theorem claim6_sibling_isolation {ε ρ : Type} (pipeline : List Char → Except ε ρ)
    (directory : List Char) (cs : List FSTree) (out : List (List Char × ρ))
    (p q : List Char) (r : ρ) (msg : ε)
    (hout : IsProjectReviewResult pipeline directory cs out)
    (_hq : q ∈ scan_directory directory cs) (_hqfail : pipeline q = .error msg)
    (hp : p ∈ scan_directory directory cs) (hpok : pipeline p = .ok r) :
    (p, r) ∈ out :=
  (hout.mem_iff).mpr (reviewOutcomes_mem_of_ok hp hpok)

theorem claim6_sibling_isolation_witness :
    (("d/b.py".data, 7) : List Char × Nat) ∈ c3out :=
  claim6_sibling_isolation c3pipe ("d".data) c3cs c3out
    ("d/b.py".data) ("d/a.py".data) 7 ("boom".data)
    (List.Perm.refl _) (by decide) rfl (by decide) rfl

theorem claim4_scan_directory_filter_witness :
    "root/a.py".data ∈ scan_directory ("root".data)
        [.file ("a.py".data), .file ("b.txt".data),
         .dir ("sub".data) [.file ("c.go".data)]] ↔
      ∃ q ∈ allFiles ("root".data)
          [.file ("a.py".data), .file ("b.txt".data),
           .dir ("sub".data) [.file ("c.go".data)]],
        q.1 = "root/a.py".data ∧ matchesExt q.2 = true :=
  claim4_scan_directory_filter.2.1 ("root".data)
    [.file ("a.py".data), .file ("b.txt".data),
     .dir ("sub".data) [.file ("c.go".data)]] ("root/a.py".data)
